import Mathlib

/-!
Verification of the Duke3D file utility readers.

Shallow embedding of the two binary-format readers of the repository:

* `GrpFileReader` (src/grp/src/lib.rs): reader for .grp archives
  ("KenSilverman" magic, little-endian u32 file count, 16-byte directory
  records, payloads concatenated after the directory).
* `ArtFileReader` (src/art/src/lib.rs): reader for .art tile catalogs
  (little-endian u32 version, skipped count field, first/last tile ids,
  parallel runs of i16 widths then i16 heights).

A byte source (`File` + `BufReader` in the source) is modelled as a
`List Nat` of byte values together with an explicit cursor position.
`read_exact` into an `n`-byte buffer succeeds iff `n` bytes are available
from the cursor (a 0-byte `read_exact` always succeeds, as in Rust);
`seek(SeekFrom::Start _)` on a plain file never fails and is modelled as a
pure position update.  Machine integers are modelled as `Nat`/`Int` with
explicit `% 2^w` where the source relies on fixed-width semantics.
Each distinct error `String` of the source is one constructor of an
explicit error type, carrying the dynamic data the message interpolates.
-/

/-- One `read_exact` call on the byte source `src` at cursor `pos` into a
buffer of `n` bytes: returns the bytes read and the new cursor position,
or `none` when fewer than `n` bytes remain (Rust `read_exact` returns
`Ok(())` immediately for an empty buffer, hence the `n = 0` case). -/
def readExact (src : List Nat) (pos n : Nat) : Option (List Nat × Nat) :=
  if n = 0 then some ([], pos)
  else if pos + n ≤ src.length then some ((src.drop pos).take n, pos + n)
  else none

/-- Little-endian interpretation of a byte list as an unsigned number. -/
def leNat : List Nat → Nat
  | [] => 0
  | b :: rest => b + 256 * leNat rest

/-- Value of `u32::from_le_bytes` on a 4-byte buffer. -/
def u32le (bs : List Nat) : Nat :=
  leNat bs % 4294967296

/-- Value of `i16::from_le_bytes` on a 2-byte buffer: two's-complement
interpretation of the low 16 bits. -/
def i16le (bs : List Nat) : Int :=
  if leNat bs % 65536 < 32768 then ((leNat bs % 65536 : Nat) : Int)
  else ((leNat bs % 65536 : Nat) : Int) - 65536

/-- The 12 bytes of `GrpFileReader::FORMAT_DESIGNER_NAME`
(`b"KenSilverman"`). -/
def grpMagic : List Nat :=
  [75, 101, 110, 83, 105, 108, 118, 101, 114, 109, 97, 110]

/-- The distinct error strings `GrpFileReader` can return, one constructor
per `map_err`/`format!` site in src/grp/src/lib.rs.  `magicMismatch`
carries the 12 bytes that were read (interpolated into the message).
The two seek constructors are present for completeness but are never
produced: `seek(SeekFrom::Start _)` on a file cannot fail. -/
inductive GrpError where
  /-- Message "Failed to read magic constant from .grp file." -/
  | magicReadFailed
  /-- Message "Magic constant ... does not match the magic ... read from the .grp file." -/
  | magicMismatch (found : List Nat)
  /-- Message "Failed to read file count from .grp file. ..." -/
  | fileCountReadFailed
  /-- Message "Failed to set the file reader after the format designer name and the file count." -/
  | seekEntriesFailed
  /-- Message "Failed to read file name from .grp file." -/
  | entryNameReadFailed
  /-- Message "Failed to read file size from .grp file." -/
  | entrySizeReadFailed
  /-- Message "Failed to seek to file offset." -/
  | seekFileFailed
  /-- Message "Failed to read file from .grp file." -/
  | fileReadFailed
deriving DecidableEq

/-- Reader state of `GrpFileReader`: the public `file_count` field plus the cursor of the
wrapped `BufReader` (the only mutable state of the reader). -/
structure GrpFileReader where
  file_count : Nat
  pos : Nat
deriving DecidableEq

/-- Directory entry `GrpFileEntry`: raw 12-byte name field, derived absolute `offset`
(u64) and stored `size` (u32). -/
structure GrpFileEntry where
  name : List Nat
  offset : Nat
  size : Nat
deriving DecidableEq

/-- Name decoding of `GrpFileEntry::name()`: push each byte as a `char` (one byte, one code
point) until the first zero byte. -/
def grpEntryName : List Nat → List Nat
  | [] => []
  | b :: rest => if b = 0 then [] else b :: grpEntryName rest

/-- The decoded, zero-terminated name of an entry (the source's
`name(&self) -> String` method; renamed because `name` is also the raw
field). -/
def GrpFileEntry.decodedName (e : GrpFileEntry) : List Nat :=
  grpEntryName e.name

/-- Constructor `GrpFileReader::new`: read 12 bytes, compare with the magic, then read
the little-endian u32 file count.  The cursor ends at byte 16. -/
def GrpFileReader.new (src : List Nat) : Except GrpError GrpFileReader :=
  match readExact src 0 12 with
  | none => .error .magicReadFailed
  | some (format_designer_name_buf, pos1) =>
    if format_designer_name_buf ≠ grpMagic then
      .error (.magicMismatch format_designer_name_buf)
    else
      match readExact src pos1 4 with
      | none => .error .fileCountReadFailed
      | some (file_count_buf, pos2) =>
        .ok { file_count := u32le file_count_buf, pos := pos2 }

/-- The `for _ in 0..self.file_count` loop of
`GrpFileReader::get_file_entries`: read a 12-byte name and a 4-byte
little-endian size per iteration, keeping the running `current_offset`
accumulator; returns the entries in directory order and the final cursor
position.  `current_offset` is a `u64` in the source and the
`current_offset += file_size as u64` update wraps modulo 2^64 (release
semantics of the unchecked addition), hence the explicit
`% 18446744073709551616`. -/
def readEntriesLoop (src : List Nat) :
    Nat → Nat → Nat → Except GrpError (List GrpFileEntry × Nat)
  | 0, pos, _ => .ok ([], pos)
  | n + 1, pos, current_offset =>
    match readExact src pos 12 with
    | none => .error .entryNameReadFailed
    | some (file_name_buf, pos1) =>
      match readExact src pos1 4 with
      | none => .error .entrySizeReadFailed
      | some (size_buf, pos2) =>
        match readEntriesLoop src n pos2
            ((current_offset + u32le size_buf) % 18446744073709551616) with
        | .error e => .error e
        | .ok (files, posEnd) =>
          .ok ({ name := file_name_buf, offset := current_offset,
                 size := u32le size_buf } :: files, posEnd)

/-- Method `GrpFileReader::get_file_entries`: seek to byte 16 (end of header,
always succeeds), seed `current_offset` with
`12 + 4 + file_count * 16` (64-bit `usize` arithmetic, wrapping modulo
2^64 like the loop's accumulator), then run the directory loop. -/
def GrpFileReader.get_file_entries (src : List Nat) (r : GrpFileReader) :
    Except GrpError (List GrpFileEntry × GrpFileReader) :=
  match readEntriesLoop src r.file_count (12 + 4)
      ((12 + 4 + r.file_count * 16) % 18446744073709551616) with
  | .error e => .error e
  | .ok (files, posEnd) => .ok (files, { file_count := r.file_count, pos := posEnd })

/-- Method `GrpFileReader::find_file_entry`: get the entries, return the first
whose decoded name equals the query (`Iterator::find`). -/
def GrpFileReader.find_file_entry (src : List Nat) (r : GrpFileReader)
    (file_name : List Nat) : Except GrpError (Option GrpFileEntry × GrpFileReader) :=
  match GrpFileReader.get_file_entries src r with
  | .error e => .error e
  | .ok (file_entries, r') =>
    .ok (file_entries.find? (fun f => f.decodedName == file_name), r')

/-- Method `GrpFileReader::read_file`: seek to `entry.offset` (always succeeds on
a file) and `read_exact` a buffer of `entry.size` bytes. -/
def GrpFileReader.read_file (src : List Nat) (r : GrpFileReader)
    (entry : GrpFileEntry) : Except GrpError (List Nat × GrpFileReader) :=
  match readExact src entry.offset entry.size with
  | none => .error .fileReadFailed
  | some (buf, posAfter) => .ok (buf, { r with pos := posAfter })

/-- The distinct error strings `ArtFileReader` can return, one constructor
per `map_err`/`format!` site in src/art/src/lib.rs.
`unsupportedVersion` carries the version that was read and the supported
version, as interpolated into "Unsupported version number {} (should be
{})".  `seekTilesFailed` is never produced: the seek cannot fail. -/
inductive ArtError where
  /-- Message "Failed to read version number from .art file." -/
  | versionReadFailed
  /-- Message "Unsupported version number {found} (should be {expected})" -/
  | unsupportedVersion (found expected : Nat)
  /-- Message "Failed to set the file reader after the version number and the number of tiles." -/
  | seekTilesFailed
  /-- Message "Failed to read first tile number from .art file." -/
  | firstTileReadFailed
  /-- Message "Failed to read last tile number from .art file." -/
  | lastTileReadFailed
  /-- Message "Failed to read tile width from .art file." -/
  | tileWidthReadFailed
  /-- Message "Failed to read tile height from .art file." -/
  | tileHeightReadFailed
deriving DecidableEq

/-- Reader state of `ArtFileReader`: holds only the wrapped reader, i.e. the cursor. -/
structure ArtFileReader where
  pos : Nat
deriving DecidableEq

/-- Tile record `ArtTile`: decoded tile record (fields in the source's declaration
order: height, number, width). -/
structure ArtTile where
  height : Int
  number : Nat
  width : Int
deriving DecidableEq

/-- Constructor `ArtFileReader::new`: read the 4-byte little-endian version number and
require it to equal `SUPPORTED_VERSION_NUMBER = 1`.  The following 4-byte
tile-count field is deliberately not read. -/
def ArtFileReader.new (src : List Nat) : Except ArtError ArtFileReader :=
  match readExact src 0 4 with
  | none => .error .versionReadFailed
  | some (version_number_buf, pos1) =>
    if u32le version_number_buf ≠ 1 then
      .error (.unsupportedVersion (u32le version_number_buf) 1)
    else
      .ok { pos := pos1 }

/-- One of the two `for _ in 0..tile_count` loops of `read_tiles`: read
`n` little-endian i16 values starting at `pos`, failing with `err` (the
width- or height-specific message) on a short read. -/
def readTileDims (src : List Nat) (err : ArtError) :
    Nat → Nat → Except ArtError (List Int × Nat)
  | 0, pos => .ok ([], pos)
  | n + 1, pos =>
    match readExact src pos 2 with
    | none => .error err
    | some (buf, pos1) =>
      match readTileDims src err n pos1 with
      | .error e => .error e
      | .ok (vs, posEnd) => .ok (i16le buf :: vs, posEnd)

/-- Method `ArtFileReader::read_tiles`: seek to byte 8 (always succeeds), read
`first_tile_number` and `last_tile_number` (little-endian u32), compute
`tile_count = last - first + 1` with u32 wrapping semantics (the release
behaviour of the unchecked subtraction), read `tile_count` widths then
`tile_count` heights, and pair them positionally
(`zip` + `enumerate` + `map`, tile `i` numbered `first + i` with u32
wrapping addition). -/
def ArtFileReader.read_tiles (src : List Nat) (r : ArtFileReader) :
    Except ArtError (List ArtTile × ArtFileReader) :=
  match readExact src (4 + 4) 4 with
  | none => .error .firstTileReadFailed
  | some (first_buf, pos1) =>
    match readExact src pos1 4 with
    | none => .error .lastTileReadFailed
    | some (last_buf, pos2) =>
      match readTileDims src .tileWidthReadFailed
          (((u32le last_buf + 4294967296 - u32le first_buf) % 4294967296 + 1) %
            4294967296) pos2 with
      | .error e => .error e
      | .ok (tile_widths, pos3) =>
        match readTileDims src .tileHeightReadFailed
            (((u32le last_buf + 4294967296 - u32le first_buf) % 4294967296 + 1) %
              4294967296) pos3 with
        | .error e => .error e
        | .ok (tile_heights, pos4) =>
          .ok ((tile_widths.zip tile_heights).enum.map
                (fun p => { height := p.2.2,
                            number := (u32le first_buf + p.1 % 4294967296) %
                              4294967296,
                            width := p.2.1 }),
               { r with pos := pos4 })

/-! Concrete sample inputs.

`sampleGrp` is the synthetic archive of the spec's end-to-end scenario:
magic, `member_count = 2`, entries `A.TXT` (size 3) and `B.TXT` (size 2),
payload `"xyzhi"`.  `sampleArt` is the synthetic catalog: version 1,
reserved 0, ids 100..102, widths `[10, 20, 30]`, heights `[5, 15, 25]`. -/

/-- Bytes of `b"A.TXT"` padded with zero bytes to 12 bytes. -/
def aName : List Nat := [65, 46, 84, 88, 84, 0, 0, 0, 0, 0, 0, 0]

/-- Bytes of `b"B.TXT"` padded with zero bytes to 12 bytes. -/
def bName : List Nat := [66, 46, 84, 88, 84, 0, 0, 0, 0, 0, 0, 0]

/-- Synthetic two-member archive: header, directory, payload `"xyzhi"`. -/
def sampleGrp : List Nat :=
  grpMagic ++ [2, 0, 0, 0] ++
  aName ++ [3, 0, 0, 0] ++
  bName ++ [2, 0, 0, 0] ++
  [120, 121, 122, 104, 105]

/-- The directory entries of `sampleGrp` in directory order. -/
def sampleEntries : List GrpFileEntry :=
  [{ name := aName, offset := 48, size := 3 },
   { name := bName, offset := 51, size := 2 }]

/-- Synthetic catalog: version 1, ids 100..102, widths 10/20/30,
heights 5/15/25. -/
def sampleArt : List Nat :=
  [1, 0, 0, 0] ++ [0, 0, 0, 0] ++ [100, 0, 0, 0] ++ [102, 0, 0, 0] ++
  [10, 0, 20, 0, 30, 0] ++ [5, 0, 15, 0, 25, 0]

/-- The tiles decoded from `sampleArt`. -/
def sampleTiles : List ArtTile :=
  [{ height := 5, number := 100, width := 10 },
   { height := 15, number := 101, width := 20 },
   { height := 25, number := 102, width := 30 }]

/-- A 16-byte catalog with version 1, `first_id = 1`, `last_id = 0`:
the inverted-range input on which the unchecked `last - first + 1`
wraps to a tile count of 0. -/
def invertedArtWrapZero : List Nat :=
  [1, 0, 0, 0] ++ [0, 0, 0, 0] ++ [1, 0, 0, 0] ++ [0, 0, 0, 0]

/-- A 16-byte catalog with version 1, `first_id = 2`, `last_id = 0`:
the unchecked `last - first + 1` wraps to a tile count of
`4294967295`. -/
def invertedArtWrapHuge : List Nat :=
  [1, 0, 0, 0] ++ [0, 0, 0, 0] ++ [2, 0, 0, 0] ++ [0, 0, 0, 0]

/-- A 16-byte catalog with version 1, `first_id = 0`,
`last_id = 4294967295` (the full u32 id range, not inverted): the u32
count `last - first + 1` wraps 2^32 to 0. -/
def fullRangeArt : List Nat :=
  [1, 0, 0, 0] ++ [0, 0, 0, 0] ++ [0, 0, 0, 0] ++ [255, 255, 255, 255]

/-- Decidable equality of `Except` results (the standard library of this
toolchain does not provide it), used to evaluate the readers on the
concrete sample inputs. -/
instance {e a : Type} [DecidableEq e] [DecidableEq a] : DecidableEq (Except e a)
  | .error x, .error y =>
    if h : x = y then .isTrue (by rw [h])
    else .isFalse (by intro hh; cases hh; exact h rfl)
  | .error _, .ok _ => .isFalse (by intro hh; cases hh)
  | .ok _, .error _ => .isFalse (by intro hh; cases hh)
  | .ok x, .ok y =>
    if h : x = y then .isTrue (by rw [h])
    else .isFalse (by intro hh; cases hh; exact h rfl)

theorem readExact_eq_some {src : List Nat} {pos n : Nat} {buf : List Nat}
    {pos' : Nat} (h : readExact src pos n = some (buf, pos')) :
    buf = (src.drop pos).take n ∧ pos' = pos + n ∧ buf.length = n := by
  unfold readExact at h
  split at h
  · rename_i hn
    subst hn
    simp_all
  · split at h
    · rename_i hn hle
      obtain ⟨hbuf, hpos⟩ := by simpa using h
      subst hbuf hpos
      refine ⟨rfl, rfl, ?_⟩
      simp only [List.length_take, List.length_drop]
      omega
    · simp at h

theorem readExact_of_le {src : List Nat} {pos n : Nat}
    (h : pos + n ≤ src.length) :
    readExact src pos n = some ((src.drop pos).take n, pos + n) := by
  unfold readExact
  rcases Nat.eq_zero_or_pos n with hn | hn
  · subst hn
    simp
  · rw [if_neg (by omega), if_pos h]

theorem readExact_eq_none {src : List Nat} {pos n : Nat} (hn : n ≠ 0)
    (h : src.length < pos + n) : readExact src pos n = none := by
  unfold readExact
  rw [if_neg hn, if_neg (by omega)]

theorem readExact_zero (src : List Nat) (pos : Nat) :
    readExact src pos 0 = some ([], pos) := by
  unfold readExact
  simp

theorem readExact_append {src tail : List Nat} {pos n : Nat}
    (h : pos + n ≤ src.length) :
    readExact (src ++ tail) pos n = readExact src pos n := by
  rw [readExact_of_le h, readExact_of_le (by simp; omega)]
  congr 2
  rw [List.drop_append_of_le_length (by omega)]
  rw [List.take_append_of_le_length (by simp; omega)]

theorem readEntriesLoop_spec {src : List Nat} :
    ∀ {n pos cur : Nat} {es : List GrpFileEntry} {posEnd : Nat},
      cur < 18446744073709551616 →
      readEntriesLoop src n pos cur = Except.ok (es, posEnd) →
      es.length = n ∧
      ∀ i (hi : i < es.length),
        (es.get ⟨i, hi⟩).offset =
          (cur + ((es.take i).map GrpFileEntry.size).sum) %
            18446744073709551616 := by
  intro n
  induction n with
  | zero =>
    intro pos cur es posEnd hcur h
    simp only [readEntriesLoop, Except.ok.injEq, Prod.mk.injEq] at h
    obtain ⟨hes, _⟩ := h
    subst hes
    simp
  | succ n ih =>
    intro pos cur es posEnd hcur h
    simp only [readEntriesLoop] at h
    cases h1 : readExact src pos 12 with
    | none =>
      simp only [h1] at h
      exact Except.noConfusion h
    | some v =>
      obtain ⟨nameBuf, pos1⟩ := v
      simp only [h1] at h
      cases h2 : readExact src pos1 4 with
      | none =>
        simp only [h2] at h
        exact Except.noConfusion h
      | some w =>
        obtain ⟨sizeBuf, pos2⟩ := w
        simp only [h2] at h
        cases h3 : readEntriesLoop src n pos2
            ((cur + u32le sizeBuf) % 18446744073709551616) with
        | error e =>
          simp only [h3] at h
          exact Except.noConfusion h
        | ok res =>
          obtain ⟨rest, pEnd⟩ := res
          simp only [h3, Except.ok.injEq, Prod.mk.injEq] at h
          obtain ⟨hes, _⟩ := h
          subst hes
          obtain ⟨hlen, hoff⟩ := ih (Nat.mod_lt _ (by norm_num)) h3
          refine ⟨by simp [hlen], ?_⟩
          intro i hi
          cases i with
          | zero => simp [Nat.mod_eq_of_lt hcur]
          | succ j =>
            have hj : j < rest.length := by simpa using hi
            have hrec := hoff j hj
            simp only [List.get_cons_succ, List.take_succ_cons, List.map_cons,
              List.sum_cons]
            rw [hrec]
            omega

theorem readTileDims_spec {src : List Nat} {err : ArtError} :
    ∀ {n pos : Nat} {vs : List Int} {posEnd : Nat},
      readTileDims src err n pos = Except.ok (vs, posEnd) →
      vs.length = n ∧ posEnd = pos + 2 * n ∧
      ∀ k (hk : k < vs.length),
        vs.get ⟨k, hk⟩ = i16le ((src.drop (pos + 2 * k)).take 2) := by
  intro n
  induction n with
  | zero =>
    intro pos vs posEnd h
    simp only [readTileDims, Except.ok.injEq, Prod.mk.injEq] at h
    obtain ⟨hvs, hpos⟩ := h
    subst hvs
    refine ⟨rfl, by omega, by intro k hk; simp at hk⟩
  | succ n ih =>
    intro pos vs posEnd h
    simp only [readTileDims] at h
    cases h1 : readExact src pos 2 with
    | none =>
      simp only [h1] at h
      exact Except.noConfusion h
    | some v =>
      obtain ⟨buf, pos1⟩ := v
      simp only [h1] at h
      cases h2 : readTileDims src err n pos1 with
      | error e =>
        simp only [h2] at h
        exact Except.noConfusion h
      | ok res =>
        obtain ⟨rest, pEnd⟩ := res
        simp only [h2, Except.ok.injEq, Prod.mk.injEq] at h
        obtain ⟨hvs, hpos⟩ := h
        subst hvs
        obtain ⟨hbuf, hpos1, _⟩ := readExact_eq_some h1
        subst hbuf hpos1
        obtain ⟨hlen, hend, hval⟩ := ih h2
        refine ⟨by simp [hlen], by omega, ?_⟩
        intro k hk
        cases k with
        | zero => simp
        | succ j =>
          have hj : j < rest.length := by simpa using hk
          have hrec := hval j hj
          simp only [List.get_cons_succ]
          rw [show pos + 2 * (j + 1) = pos + 2 + 2 * j from by omega]
          exact hrec

theorem grpEntryName_eq_takeWhile (l : List Nat) :
    grpEntryName l = l.takeWhile (fun b => b ≠ 0) := by
  induction l with
  | nil => rfl
  | cons b rest ih =>
    by_cases hb : b = 0
    · subst hb
      simp [grpEntryName, List.takeWhile]
    · simp [grpEntryName, List.takeWhile, hb, ih]

theorem grpEntryName_of_not_mem_zero {l : List Nat} (h : 0 ∉ l) :
    grpEntryName l = l := by
  induction l with
  | nil => rfl
  | cons b rest ih =>
    have hb : b ≠ 0 := fun hh => h (hh ▸ List.mem_cons_self b rest)
    simp only [grpEntryName, if_neg hb]
    rw [ih (fun hh => h (List.mem_cons_of_mem b hh))]

theorem find?_first {α : Type} (p : α → Bool) :
    ∀ (l : List α) (x : α), l.find? p = some x →
      ∃ i : Fin l.length, l.get i = x ∧ p x = true ∧
        ∀ j (hj : j < i.val), p (l.get ⟨j, Nat.lt_trans hj i.isLt⟩) = false := by
  intro l
  induction l with
  | nil =>
    intro x h
    simp [List.find?] at h
  | cons a rest ih =>
    intro x h
    cases hpa : p a with
    | true =>
      rw [List.find?_cons_of_pos _ hpa] at h
      obtain rfl : a = x := by simpa using h
      exact ⟨⟨0, by simp⟩, rfl, hpa,
        fun j hj => absurd (by simp only [Fin.val_mk] at hj; exact hj)
          (Nat.not_lt_zero j)⟩
    | false =>
      rw [List.find?_cons_of_neg _ (by simp [hpa])] at h
      obtain ⟨i, hget, hpx, hfirst⟩ := ih x h
      refine ⟨⟨i.val + 1, Nat.succ_lt_succ i.isLt⟩, ?_, hpx, ?_⟩
      · simpa using hget
      · intro j hj
        simp only [Fin.val_mk] at hj
        cases j with
        | zero => simp [hpa]
        | succ j' =>
          have hj' : j' < i.val := by omega
          simpa using hfirst j' hj'

theorem zipEnumMap_spec {α β γ : Type} (f : Nat × α × β → γ) (xs : List α)
    (ys : List β) (h : xs.length = ys.length) :
    ((xs.zip ys).enum.map f).length = xs.length ∧
    ∀ k (hk : k < ((xs.zip ys).enum.map f).length) (hx : k < xs.length)
      (hy : k < ys.length),
      ((xs.zip ys).enum.map f).get ⟨k, hk⟩ =
        f (k, (xs.get ⟨k, hx⟩, ys.get ⟨k, hy⟩)) := by
  have hlz : (xs.zip ys).length = xs.length := by
    rw [List.length_zip]
    omega
  constructor
  · simp [List.enum_length, hlz]
  · intro k hk hx hy
    rw [List.get_eq_getElem, List.getElem_map, List.getElem_enum,
      List.getElem_zip]
    simp [List.get_eq_getElem]

/-- A 16-byte source whose first 12 bytes are not the magic constant. -/
def badMagicGrp : List Nat := [0, 1, 2, 3, 4, 5, 6, 7, 8, 9, 10, 11, 2, 0, 0, 0]

/-- A 16-byte catalog whose version field holds 2 instead of 1. -/
def badVersionArt : List Nat := [2, 0, 0, 0, 9, 9, 9, 9, 7, 7, 7, 7, 8, 8, 8, 8]

/-- C6: for a source of at least 12 bytes, `GrpFileReader::new` fails with
the magic-mismatch format error (carrying the 12 bytes read) whenever the
first 12 bytes differ from `"KenSilverman"`, and when they match it reads
bytes 12..16 as the little-endian u32 `file_count` and succeeds with the
cursor at 16.  Both results are unchanged by appending arbitrary bytes
(in particular directory records) to the source: construction never reads
past byte 16. -/
theorem grp_new_header_validation (src : List Nat) (h12 : 12 ≤ src.length) :
    (src.take 12 ≠ grpMagic →
      ∀ tail, GrpFileReader.new (src ++ tail) =
        .error (.magicMismatch (src.take 12))) ∧
    (src.take 12 = grpMagic → 16 ≤ src.length →
      ∀ tail, GrpFileReader.new (src ++ tail) =
        .ok { file_count := u32le ((src.drop 12).take 4), pos := 16 }) := by
  have hr1 : ∀ tail : List Nat, readExact (src ++ tail) 0 12 =
      some (src.take 12, 12) := by
    intro tail
    rw [readExact_append (by omega), readExact_of_le (by omega)]
    simp
  constructor
  · intro hne tail
    simp only [GrpFileReader.new, hr1 tail]
    rw [if_pos hne]
  · intro heq h16 tail
    have hr2 : readExact (src ++ tail) 12 4 = some ((src.drop 12).take 4, 16) := by
      rw [readExact_append (by omega), readExact_of_le (by omega)]
    simp only [GrpFileReader.new, hr1 tail, hr2]
    rw [if_neg (by simp [heq])]

theorem grp_new_header_validation_witness :
    GrpFileReader.new (badMagicGrp ++ []) =
      .error (.magicMismatch (badMagicGrp.take 12)) ∧
    GrpFileReader.new (sampleGrp ++ []) =
      .ok { file_count := u32le ((sampleGrp.drop 12).take 4), pos := 16 } :=
  ⟨(grp_new_header_validation badMagicGrp (by decide)).1 (by decide) [],
   (grp_new_header_validation sampleGrp (by decide)).2 (by decide) (by decide) []⟩

/-- C7: for a source of at least 4 bytes whose little-endian u32 version
is not 1, `ArtFileReader::new` fails with the unsupported-version format
error carrying both the read version and the expected version 1; moreover
the result of `new` depends only on the first 4 bytes of the source, so
no byte of the range header (or of anything past the version field) is
read. -/
theorem art_new_version_validation (src : List Nat) (h4 : 4 ≤ src.length)
    (hv : u32le (src.take 4) ≠ 1) :
    ArtFileReader.new src = .error (.unsupportedVersion (u32le (src.take 4)) 1) ∧
    ∀ src' : List Nat, src.take 4 = src'.take 4 →
      ArtFileReader.new src' = ArtFileReader.new src := by
  have hread : ∀ s : List Nat, 4 ≤ s.length →
      readExact s 0 4 = some (s.take 4, 4) := by
    intro s hs
    rw [readExact_of_le (by omega)]
    simp
  constructor
  · simp only [ArtFileReader.new, hread src h4]
    rw [if_pos hv]
  · intro src' heq
    have hlen' : 4 ≤ src'.length := by
      have h1 : (src'.take 4).length = 4 := by
        rw [← heq, List.length_take]
        omega
      rw [List.length_take] at h1
      omega
    simp only [ArtFileReader.new, hread src h4, hread src' hlen', heq]

theorem art_new_version_validation_witness :
    ArtFileReader.new badVersionArt =
      .error (.unsupportedVersion (u32le (badVersionArt.take 4)) 1) ∧
    u32le (badVersionArt.take 4) = 2 :=
  ⟨(art_new_version_validation badVersionArt (by decide) (by decide)).1,
   by decide⟩

/-- C2: whenever `get_file_entries` succeeds it returns exactly
`file_count` entries in directory order; the offset of entry `i` is
`16 + 16 * file_count` plus the sum of the declared sizes of the entries
before it, and consequently each entry's offset plus its size equals the
next entry's offset.  Offsets and their sums are the program's u64
quantities, so every `+` here wraps modulo 2^64 exactly as the source's
`current_offset` accumulator does (the two coincide whenever the
cumulative sizes stay below 2^64, i.e. on every archive a real file
system can hold). -/
theorem grp_entries_offsets (src : List Nat) (r : GrpFileReader)
    (es : List GrpFileEntry) (r' : GrpFileReader)
    (h : GrpFileReader.get_file_entries src r = .ok (es, r')) :
    es.length = r.file_count ∧
    (∀ i (hi : i < es.length),
      (es.get ⟨i, hi⟩).offset =
        (16 + 16 * r.file_count + ((es.take i).map GrpFileEntry.size).sum) %
          18446744073709551616) ∧
    ∀ i (hi : i + 1 < es.length),
      ((es.get ⟨i, Nat.lt_of_succ_lt hi⟩).offset +
          (es.get ⟨i, Nat.lt_of_succ_lt hi⟩).size) % 18446744073709551616 =
        (es.get ⟨i + 1, hi⟩).offset := by
  simp only [GrpFileReader.get_file_entries] at h
  cases hl : readEntriesLoop src r.file_count (12 + 4)
      ((12 + 4 + r.file_count * 16) % 18446744073709551616) with
  | error e =>
    simp only [hl] at h
    exact Except.noConfusion h
  | ok res =>
    obtain ⟨files, posEnd⟩ := res
    simp only [hl, Except.ok.injEq, Prod.mk.injEq] at h
    obtain ⟨hfe, _⟩ := h
    subst hfe
    obtain ⟨hlen, hoff⟩ := readEntriesLoop_spec (Nat.mod_lt _ (by norm_num)) hl
    refine ⟨hlen, ?_, ?_⟩
    · intro i hi
      rw [hoff i hi]
      omega
    · intro i hi
      have h1 := hoff i (Nat.lt_of_succ_lt hi)
      have h2 := hoff (i + 1) hi
      rw [h1, h2]
      have hi' : i < (files.map GrpFileEntry.size).length := by
        rw [List.length_map]
        omega
      have hsum : ((files.take (i + 1)).map GrpFileEntry.size).sum =
          ((files.take i).map GrpFileEntry.size).sum +
            (files.get ⟨i, Nat.lt_of_succ_lt hi⟩).size := by
        rw [List.map_take, List.map_take, List.sum_take_succ _ i hi']
        congr 1
        simp [List.getElem_map]
      rw [hsum]
      omega

theorem grp_entries_offsets_witness :
    sampleEntries.length = 2 ∧
    ((sampleEntries.get ⟨0, by decide⟩).offset +
        (sampleEntries.get ⟨0, by decide⟩).size) % 18446744073709551616 =
      (sampleEntries.get ⟨1, by decide⟩).offset := by
  have h := grp_entries_offsets sampleGrp { file_count := 2, pos := 16 }
    sampleEntries { file_count := 2, pos := 48 } (by decide)
  exact ⟨h.1, h.2.2 0 (by decide)⟩

/-- C8: the result of `get_file_entries` does not depend on the reader's
cursor position — the call seeks to byte 16 unconditionally — so any two
readers over the same source with the same `file_count` get the same
entries (idempotence under arbitrary interleavings); and `read_file`
never changes `file_count`, so interleaved member reads cannot perturb
later enumerations. -/
theorem grp_entries_idempotent (src : List Nat) (r₁ r₂ : GrpFileReader)
    (h : r₁.file_count = r₂.file_count) :
    GrpFileReader.get_file_entries src r₁ =
      GrpFileReader.get_file_entries src r₂ ∧
    ∀ entry buf rf, GrpFileReader.read_file src r₁ entry = .ok (buf, rf) →
      rf.file_count = r₁.file_count := by
  constructor
  · obtain ⟨fc₁, p₁⟩ := r₁
    obtain ⟨fc₂, p₂⟩ := r₂
    simp only at h
    subst h
    rfl
  · intro entry buf rf hrf
    simp only [GrpFileReader.read_file] at hrf
    cases hx : readExact src entry.offset entry.size with
    | none =>
      simp only [hx] at hrf
      exact Except.noConfusion hrf
    | some v =>
      obtain ⟨b, pA⟩ := v
      simp only [hx, Except.ok.injEq, Prod.mk.injEq] at hrf
      obtain ⟨_, hrf2⟩ := hrf
      subst hrf2
      rfl

theorem grp_entries_idempotent_witness :
    GrpFileReader.get_file_entries sampleGrp { file_count := 2, pos := 0 } =
      GrpFileReader.get_file_entries sampleGrp { file_count := 2, pos := 999 } :=
  (grp_entries_idempotent sampleGrp
    { file_count := 2, pos := 0 } { file_count := 2, pos := 999 } rfl).1

/-- C4: given a successful directory enumeration, `find_file_entry`
succeeds and returns the `find?` of the entries; a `some` result is the
first entry in directory order whose decoded zero-terminated name equals
the query, and the result is `none` — an absent value, not an error —
exactly when no entry's decoded name matches. -/
theorem grp_find_file_entry_first_match (src : List Nat) (r : GrpFileReader)
    (q : List Nat) (es : List GrpFileEntry) (r' : GrpFileReader)
    (h : GrpFileReader.get_file_entries src r = .ok (es, r')) :
    GrpFileReader.find_file_entry src r q =
      .ok (es.find? (fun f => f.decodedName == q), r') ∧
    (∀ e, es.find? (fun f => f.decodedName == q) = some e →
      ∃ i : Fin es.length, es.get i = e ∧ e.decodedName = q ∧
        ∀ j (hj : j < i.val),
          (es.get ⟨j, Nat.lt_trans hj i.isLt⟩).decodedName ≠ q) ∧
    (es.find? (fun f => f.decodedName == q) = none ↔
      ∀ e ∈ es, e.decodedName ≠ q) := by
  refine ⟨?_, ?_, ?_⟩
  · simp only [GrpFileReader.find_file_entry, h]
  · intro e hfind
    obtain ⟨i, hget, hp, hfirst⟩ := find?_first _ es e hfind
    refine ⟨i, hget, by simpa using hp, ?_⟩
    intro j hj
    have hj' := hfirst j hj
    simpa using hj'
  · rw [List.find?_eq_none]
    constructor
    · intro hn e he
      have he' := hn e he
      simpa using he'
    · intro hn e he
      simpa using hn e he

theorem grp_find_file_entry_first_match_witness :
    GrpFileReader.find_file_entry sampleGrp { file_count := 2, pos := 16 }
        [67, 46, 84, 88, 84] =
      .ok (none, { file_count := 2, pos := 48 }) := by
  have h := grp_find_file_entry_first_match sampleGrp
    { file_count := 2, pos := 16 } [67, 46, 84, 88, 84]
    sampleEntries { file_count := 2, pos := 48 } (by decide)
  rw [h.1, h.2.2.mpr (by decide)]

/-- C5: for an entry of a successfully enumerated directory, `read_file`
reads from the entry's computed offset: a successful read returns exactly
`size` bytes — the bytes of the source at `[offset, offset + size)` — and
leaves the cursor at `offset + size`; when the source holds fewer than
`offset + size` bytes (and `size` is nonzero) the read fails with the
truncated-payload I/O error rather than returning a short buffer. -/
theorem grp_read_file_exact_size (src : List Nat) (r r₂ : GrpFileReader)
    (es : List GrpFileEntry) (r' : GrpFileReader)
    (_h : GrpFileReader.get_file_entries src r = .ok (es, r'))
    (e : GrpFileEntry) (_he : e ∈ es) :
    (∀ buf rf, GrpFileReader.read_file src r₂ e = .ok (buf, rf) →
      buf.length = e.size ∧ buf = (src.drop e.offset).take e.size ∧
      rf = { r₂ with pos := e.offset + e.size }) ∧
    (e.size ≠ 0 → src.length < e.offset + e.size →
      GrpFileReader.read_file src r₂ e = .error .fileReadFailed) := by
  constructor
  · intro buf rf hrf
    simp only [GrpFileReader.read_file] at hrf
    cases hx : readExact src e.offset e.size with
    | none =>
      simp only [hx] at hrf
      exact Except.noConfusion hrf
    | some v =>
      obtain ⟨b, pA⟩ := v
      simp only [hx, Except.ok.injEq, Prod.mk.injEq] at hrf
      obtain ⟨hb, hrf2⟩ := hrf
      obtain ⟨hbuf, hpos, hblen⟩ := readExact_eq_some hx
      subst hb
      subst hrf2
      exact ⟨hblen, hbuf, by rw [hpos]⟩
  · intro hz hlt
    simp only [GrpFileReader.read_file, readExact_eq_none hz hlt]

theorem grp_read_file_exact_size_witness :
    GrpFileReader.read_file sampleGrp { file_count := 2, pos := 48 }
        { name := aName, offset := 48, size := 3 } =
      .ok ([120, 121, 122], { file_count := 2, pos := 51 }) ∧
    ([120, 121, 122] : List Nat).length =
      ({ name := aName, offset := 48, size := 3 } : GrpFileEntry).size :=
  ⟨by decide,
   ((grp_read_file_exact_size sampleGrp { file_count := 2, pos := 16 }
        { file_count := 2, pos := 48 } sampleEntries
        { file_count := 2, pos := 48 } (by decide)
        { name := aName, offset := 48, size := 3 } (by decide)).1
      [120, 121, 122] { file_count := 2, pos := 51 } (by decide)).1⟩

/-- C9: `read_file` on an entry whose declared size is 0 always succeeds
with the empty byte list — the seek to the entry's offset and the
zero-length `read_exact` cannot fail, even when the offset is at or past
the end of the source. -/
theorem grp_read_file_zero_size (e : GrpFileEntry) (h : e.size = 0) :
    ∀ (src : List Nat) (r : GrpFileReader),
      GrpFileReader.read_file src r e =
        .ok ([], { r with pos := e.offset }) := by
  intro src r
  simp only [GrpFileReader.read_file, h, readExact_zero]

theorem grp_read_file_zero_size_witness :
    ([] : List Nat).length < 1000 ∧
    GrpFileReader.read_file [] { file_count := 5, pos := 0 }
        { name := aName, offset := 1000, size := 0 } =
      .ok ([], { file_count := 5, pos := 1000 }) :=
  ⟨by decide,
   grp_read_file_zero_size { name := aName, offset := 1000, size := 0 } rfl
     [] { file_count := 5, pos := 0 }⟩

/-- C10: the decoded name of an entry keeps, unchanged, exactly the bytes
of the 12-byte field strictly before the first zero byte (each byte
becomes the code point of the same value, whatever the byte, including
values at or above 0x80), and when no zero byte occurs the whole field is
used. -/
theorem grp_entry_name_decode (name : List Nat) (offset size : Nat) :
    GrpFileEntry.decodedName { name := name, offset := offset, size := size } =
      name.takeWhile (fun b => b ≠ 0) ∧
    (0 ∉ name →
      GrpFileEntry.decodedName
          { name := name, offset := offset, size := size } = name) :=
  ⟨grpEntryName_eq_takeWhile name,
   fun h => grpEntryName_of_not_mem_zero h⟩

/-- Bytes of `b"KenSilv\xc8rman"`: 12 bytes, no zero byte, one byte ≥ 0x80. -/
def nz12 : List Nat := [75, 101, 110, 83, 105, 108, 118, 200, 114, 109, 97, 110]

theorem grp_entry_name_decode_witness :
    GrpFileEntry.decodedName { name := nz12, offset := 0, size := 0 } = nz12 ∧
    GrpFileEntry.decodedName { name := aName, offset := 48, size := 3 } =
      aName.takeWhile (fun b => b ≠ 0) ∧
    aName.takeWhile (fun b => b ≠ 0) = [65, 46, 84, 88, 84] :=
  ⟨(grp_entry_name_decode nz12 0 0).2 (by decide),
   (grp_entry_name_decode aName 48 3).1,
   by decide⟩

theorem u32le_lt (bs : List Nat) : u32le bs < 4294967296 :=
  Nat.mod_lt _ (by norm_num)

/-- C3 as amended: when `read_tiles` succeeds on a catalog whose range
header is not inverted and whose u32 count `last_id - first_id + 1` does
not wrap (which excludes exactly `first_id = 0`, `last_id = 2^32 - 1`,
where the count wraps to 0 and the call returns no tiles), it returns
`last_id - first_id + 1` tiles; tile `k` carries number `first_id + k`,
the `k`-th value of the width run (the i16 at byte `16 + 2k`) and the
`k`-th value of the height run (the i16 at byte `16 + 2*count + 2k`,
after all the widths). -/
theorem art_read_tiles_spec (src : List Nat) (r : ArtFileReader)
    (tiles : List ArtTile) (r' : ArtFileReader) (first last : Nat)
    (hfst : first = u32le ((src.drop 8).take 4))
    (hlst : last = u32le ((src.drop 12).take 4))
    (hfl : first ≤ last)
    (hcount : last - first + 1 < 4294967296)
    (h : ArtFileReader.read_tiles src r = .ok (tiles, r')) :
    tiles.length = last - first + 1 ∧
    ∀ k (hk : k < tiles.length),
      (tiles.get ⟨k, hk⟩).number = first + k ∧
      (tiles.get ⟨k, hk⟩).width = i16le ((src.drop (16 + 2 * k)).take 2) ∧
      (tiles.get ⟨k, hk⟩).height =
        i16le ((src.drop (16 + 2 * (last - first + 1) + 2 * k)).take 2) := by
  simp only [ArtFileReader.read_tiles] at h
  cases h1 : readExact src (4 + 4) 4 with
  | none =>
    simp only [h1] at h
    exact Except.noConfusion h
  | some v1 =>
    obtain ⟨first_buf, pos1⟩ := v1
    simp only [h1] at h
    cases h2 : readExact src pos1 4 with
    | none =>
      simp only [h2] at h
      exact Except.noConfusion h
    | some v2 =>
      obtain ⟨last_buf, pos2⟩ := v2
      simp only [h2] at h
      obtain ⟨hb1, hp1, _⟩ := readExact_eq_some h1
      obtain ⟨hb2, hp2, _⟩ := readExact_eq_some h2
      subst hp1
      subst hp2
      have hfb : u32le first_buf = first := by
        rw [hb1, hfst]
      have hlb : u32le last_buf = last := by
        rw [hb2, hlst]
      have hflt : first < 4294967296 := by
        rw [hfst]
        exact u32le_lt _
      have hllt : last < 4294967296 := by
        rw [hlst]
        exact u32le_lt _
      have hCeq : ((u32le last_buf + 4294967296 - u32le first_buf) % 4294967296
          + 1) % 4294967296 = last - first + 1 := by
        rw [hfb, hlb]
        have hsub : (last + 4294967296 - first) % 4294967296 = last - first := by
          omega
        rw [hsub]
        omega
      rw [hCeq] at h
      cases h3 : readTileDims src ArtError.tileWidthReadFailed
          (last - first + 1) (4 + 4 + 4 + 4) with
      | error e =>
        simp only [h3] at h
        exact Except.noConfusion h
      | ok res3 =>
        obtain ⟨tile_widths, pos3⟩ := res3
        simp only [h3] at h
        cases h4 : readTileDims src ArtError.tileHeightReadFailed
            (last - first + 1) pos3 with
        | error e =>
          simp only [h4] at h
          exact Except.noConfusion h
        | ok res4 =>
          obtain ⟨tile_heights, pos4⟩ := res4
          simp only [h4, Except.ok.injEq, Prod.mk.injEq] at h
          obtain ⟨htiles, _⟩ := h
          subst htiles
          obtain ⟨hwlen, hpos3, hwval⟩ := readTileDims_spec h3
          obtain ⟨hhlen, _, hhval⟩ := readTileDims_spec h4
          obtain ⟨hL, hG⟩ := zipEnumMap_spec _ tile_widths tile_heights
            (by rw [hwlen, hhlen])
          constructor
          · rw [hL, hwlen]
          · intro k hk
            have hkC : k < last - first + 1 := by
              rw [hL, hwlen] at hk
              exact hk
            have hx : k < tile_widths.length := by omega
            have hy : k < tile_heights.length := by omega
            rw [hG k hk hx hy]
            refine ⟨?_, ?_, ?_⟩
            · show (u32le first_buf + k % 4294967296) % 4294967296 = first + k
              rw [hfb]
              omega
            · show tile_widths.get ⟨k, hx⟩ = _
              rw [hwval k hx]
            · show tile_heights.get ⟨k, hy⟩ = _
              rw [hhval k hy]
              rw [show pos3 + 2 * k =
                16 + 2 * (last - first + 1) + 2 * k from by omega]

/-- C3 counterexample: the 16-byte catalog with version 1,
`first_id = 0`, `last_id = 4294967295` has a valid version and
sufficient data (the wrapped count needs no dimension bytes at all), yet
`read_tiles` succeeds with an empty tile list instead of the
`last_id - first_id + 1 = 2^32` records the claim demands: the u32
count computation wraps 2^32 to 0 (debug builds panic on the overflow of
the `+ 1` instead). -/
theorem art_read_tiles_full_range_counterexample :
    ArtFileReader.new fullRangeArt = .ok { pos := 4 } ∧
    ArtFileReader.read_tiles fullRangeArt { pos := 4 } =
      .ok ([], { pos := 16 }) ∧
    u32le ((fullRangeArt.drop 8).take 4) = 0 ∧
    u32le ((fullRangeArt.drop 12).take 4) = 4294967295 ∧
    ([] : List ArtTile).length ≠ 4294967295 - 0 + 1 :=
  ⟨by decide, by decide, by decide, by decide, by decide⟩

theorem art_read_tiles_spec_witness :
    sampleTiles.length = 102 - 100 + 1 ∧
    (sampleTiles.get ⟨1, by decide⟩).number = 100 + 1 := by
  have h := art_read_tiles_spec sampleArt { pos := 4 } sampleTiles { pos := 28 }
    100 102 (by decide) (by decide) (by decide) (by decide) (by decide)
  exact ⟨h.1, (h.2 1 (by decide)).1⟩

/-- C1 (refuted — the code lacks the check the spec requires):
`read_tiles` performs `last_tile_number - first_tile_number + 1` on u32
with no `last < first` guard (src/art/src/lib.rs:59).  On a catalog with
version 1, `first_id = 1`, `last_id = 0` the count wraps to 0 and the
call *succeeds* with an empty tile list; with `first_id = 2`,
`last_id = 0` the count wraps to 4294967295 and the call attempts that
many width reads, failing with the truncated-width I/O error once the
source is exhausted.  No execution produces a format error for the
invalid range: `ArtError` has no such constructor at all. -/
theorem art_inverted_range_no_format_error :
    ArtFileReader.new invertedArtWrapZero = .ok { pos := 4 } ∧
    ArtFileReader.read_tiles invertedArtWrapZero { pos := 4 } =
      .ok ([], { pos := 16 }) ∧
    ArtFileReader.new invertedArtWrapHuge = .ok { pos := 4 } ∧
    ArtFileReader.read_tiles invertedArtWrapHuge { pos := 4 } =
      .error .tileWidthReadFailed :=
  ⟨by decide, by decide, by decide, by decide⟩
